import Mathlib

/-!
Shallow embedding of the hsadmin real-time notification subsystem
(internal/events/broker.go, the SSE handler, and the sets package),
with proofs of the specified properties.

Go channels are modelled explicitly: a `chan Event` is a `Queue` (a bounded
buffer plus a closed flag); a non-blocking `select { case ch <- e: default: }`
is `offer`; receiving from a closed empty channel yields the zero value
(Go channel semantics); closing an already-closed channel panics.
Go maps are modelled as association lists with distinct keys; `map[T]struct{}`
sets are modelled as `Finset`.
-/

namespace HSAdmin

/-- An SSE event: `Event{Type, HTML}` from internal/events/broker.go.
(`Type` is a Lean keyword, so the field is `typ`.) -/
structure Event where
  typ : String
  html : String
deriving DecidableEq, Repr

/-- A `chan Event`: bounded buffer plus closed flag. -/
structure Queue where
  buf : List Event
  closed : Bool
deriving DecidableEq, Repr

/-- Per-subscriber channel capacity: `make(chan Event, 5)` in `Subscribe`. -/
def clientQueueCap : Nat := 5

/-- Broker intake capacity: `make(chan Event, 10)` in `NewBroker`. -/
def intakeCap : Nat := 10

/-- Non-blocking try-send on a client channel:
`select { case client <- event: default: }` in `Broker.run`.
If the buffer is full the event is dropped for that channel. -/
def offer (q : Queue) (e : Event) : Queue :=
  if q.buf.length < clientQueueCap then { q with buf := q.buf ++ [e] } else q

/-- Outcome of a Go operation: returns normally, panics, or blocks forever. -/
inductive GoOutcome
  | ok
  | panics
  | blocks
deriving DecidableEq, Repr

/-- First-match lookup in an association list (a Go map access `m[k]`;
Go maps have distinct keys, carried as `Nodup` hypotheses where needed). -/
def findVal {κ α : Type} [DecidableEq κ] : List (κ × α) → κ → Option α
  | [], _ => none
  | (k', v) :: rest, k => if k' = k then some v else findVal rest k

/-- Keys of an association list. -/
def keysOf {κ α : Type} (l : List (κ × α)) : List κ := l.map Prod.fst

/-- Insert-or-replace in an association list (a Go map assignment `m[k] = v`). -/
def upsert {κ α : Type} [DecidableEq κ] : List (κ × α) → κ → α → List (κ × α)
  | [], k, v => [(k, v)]
  | (k', v') :: rest, k, v =>
      if k' = k then (k, v) :: rest else (k', v') :: upsert rest k v

/-- State of a `Broker`. Client channels are identified by a `Nat`;
`queues` holds the state of every allocated client channel, `registered`
the identities currently in the `clients` map, `intake` the buffered
`broadcast` channel, `doneClosed` whether `done` has been closed, and
`runExited` whether the `run` goroutine has returned. -/
structure BrokerState where
  queues : List (Nat × Queue)
  registered : List Nat
  intake : List Event
  doneClosed : Bool
  runExited : Bool
deriving DecidableEq, Repr

/-- The broker state `NewBroker` starts from. -/
def initialBroker : BrokerState :=
  { queues := [], registered := [], intake := [], doneClosed := false,
    runExited := false }

/-- The `register` branch of `Broker.run`: `b.clients[client] = true`. -/
def processRegister (st : BrokerState) (c : Nat) : BrokerState :=
  { st with registered := if c ∈ st.registered then st.registered else st.registered ++ [c] }

/-- Close the channel with identity `c` (set its closed flag). -/
def closeQueueAt (qs : List (Nat × Queue)) (c : Nat) : List (Nat × Queue) :=
  qs.map (fun p => if p.1 = c then (p.1, { p.2 with closed := true }) else p)

/-- The `unregister` branch of `Broker.run`: if the channel is in the
`clients` map, delete it and close it; otherwise do nothing. -/
def processUnregister (st : BrokerState) (c : Nat) : BrokerState :=
  if c ∈ st.registered then
    { st with registered := st.registered.erase c,
              queues := closeQueueAt st.queues c }
  else st

/-- Offer an event to the channel with identity `c` (non-blocking send). -/
def offerTo (qs : List (Nat × Queue)) (c : Nat) (e : Event) : List (Nat × Queue) :=
  qs.map (fun p => if p.1 = c then (p.1, offer p.2 e) else p)

/-- The `broadcast` branch of `Broker.run`: one non-blocking offer per
registered client. Also returns the list of channel identities offered to,
one entry per offer made. -/
def processBroadcastEvent (st : BrokerState) (e : Event) :
    BrokerState × List Nat :=
  ({ st with queues := st.registered.foldl (fun qs c => offerTo qs c e) st.queues },
   st.registered)

/-- The `done` branch of `Broker.run`: close every registered client channel,
reset the `clients` map, and return from the loop. -/
def processDone (st : BrokerState) : BrokerState :=
  { st with queues := st.registered.foldl (fun qs c => closeQueueAt qs c) st.queues,
            registered := [],
            runExited := true }

/-- `Broker.Subscribe`: allocates a fresh channel `c` and sends it on the
unbuffered `register` channel. While `run` is alive the send rendezvouses
with the `register` branch; after `run` has returned there is no receiver
and the send blocks forever. -/
def Subscribe (st : BrokerState) (c : Nat) : GoOutcome × BrokerState :=
  if st.runExited then (.blocks, st) else (.ok, processRegister st c)

/-- `Broker.Unsubscribe`: sends the channel on the unbuffered `unregister`
channel; blocks forever once `run` has returned. -/
def Unsubscribe (st : BrokerState) (c : Nat) : GoOutcome × BrokerState :=
  if st.runExited then (.blocks, st) else (.ok, processUnregister st c)

/-- `Broker.Broadcast`: non-blocking try-send on the buffered `broadcast`
channel; if the intake buffer is full the event is dropped. Never blocks,
never panics, returns no error. -/
def Broadcast (st : BrokerState) (e : Event) : GoOutcome × BrokerState :=
  if st.intake.length < intakeCap
  then (.ok, { st with intake := st.intake ++ [e] })
  else (.ok, st)

/-- `Broker.Close`: `close(b.done)`. Closing an already-closed channel
panics (Go channel semantics). Otherwise the `run` loop observes `done`
and executes its cleanup branch. -/
def closeBroker (st : BrokerState) : GoOutcome × BrokerState :=
  if st.doneClosed then (.panics, st)
  else (.ok, processDone { st with doneClosed := true })

/-- Result of one receive attempt on a `chan Event`. -/
inductive RecvResult
  | ready (e : Event) (q : Queue)
  | wouldBlock
deriving DecidableEq, Repr

/-- Receive on a `chan Event`: a buffered value if any; on a closed empty
channel the receive succeeds immediately with the zero value (Go channel
semantics); otherwise it would block. -/
def recvChan (q : Queue) : RecvResult :=
  match q.buf with
  | e :: rest => .ready e { q with buf := rest }
  | [] => if q.closed then .ready ⟨"", ""⟩ q else .wouldBlock

/-- What one iteration of the `HandleSSE` select loop does. -/
inductive TransportStep
  | framed (e : Event) (q : Queue)
  | exited
  | blocked
deriving DecidableEq, Repr

/-- One iteration of the `for { select { ... } }` loop in `HandleSSE`.
`case event := <-clientChan` ignores the channel's closed flag, so a closed
empty channel delivers the zero `Event` and the loop frames it and
continues; the loop exits only via `r.Context().Done()`. -/
def handleSSEStep (q : Queue) (ctxDone : Bool) : TransportStep :=
  if ctxDone then .exited
  else
    match recvChan q with
    | .ready e q' => .framed e q'
    | .wouldBlock => .blocked

/-! ### The sets package and the change detectors -/

/-- `sets.FromSlice`: builds a `map[T]struct{}`-backed set from a slice;
order and duplicates are erased. Modelled as `List.toFinset`. -/
def setFromSlice (l : List String) : Finset String := l.toFinset

/-- `set.Equals` from the sets package: false if the lengths differ,
otherwise checks that every element of the argument is in the receiver.
Receiver first: `setEquals s s2` is `s.Equals(s2)`. -/
def setEquals (s s2 : Finset String) : Bool :=
  (s2.card == s.card) && decide (s2 ⊆ s)

/-- `MachineState` from the SSE handler: the per-machine projection used
for change detection. -/
structure MachineState where
  ID : Nat
  Online : Bool
  ApprovedRoutes : Finset String
  ExitNodeEnabled : Bool
  Tags : Finset String
deriving DecidableEq

/-- `UserState` from the SSE handler. -/
structure UserState where
  ID : Nat
  Name : String
  MachineCount : Nat
deriving DecidableEq, Repr

/-- The per-machine field comparisons of `detectMachineChanges`
(the body of its third loop, for one id present in both maps). -/
def machineFieldsChanged (curr prev : MachineState) : Bool :=
  (curr.Online != prev.Online)
  || (!(setEquals curr.ApprovedRoutes prev.ApprovedRoutes)
      || (curr.ExitNodeEnabled != prev.ExitNodeEnabled))
  || !(setEquals curr.Tags prev.Tags)

/-- `detectMachineChanges(current, previous)`: true iff some machine is new,
some machine was deleted, or some machine present in both differs in a
tracked field. Each Go `for ... range` loop that returns true on the first
hit is a `List.any`. In the third loop the Go code reads `previous[id]`
unguarded (safe there because a missing id already returned true in the
first loop); the `none` branch below is likewise unreachable when the
first disjunct is false. -/
def detectMachineChanges (current previous : List (Nat × MachineState)) : Bool :=
  current.any (fun p => (findVal previous p.1).isNone)
  || previous.any (fun p => (findVal current p.1).isNone)
  || current.any (fun p =>
      match findVal previous p.1 with
      | some prev => machineFieldsChanged p.2 prev
      | none => false)

/-- The per-user field comparisons of `detectUserChanges`. -/
def userFieldsChanged (curr prev : UserState) : Bool :=
  (curr.Name != prev.Name) || (curr.MachineCount != prev.MachineCount)

/-- `detectUserChanges(current, previous)`: true iff the map sizes differ,
or some user in `current` is absent from `previous` or differs in name or
machine count. -/
def detectUserChanges (current previous : List (Nat × UserState)) : Bool :=
  (current.length != previous.length)
  || current.any (fun p =>
      match findVal previous p.1 with
      | none => true
      | some prev => userFieldsChanged p.2 prev)

/-! ### The poller -/

/-- The fields of `models.Machine` the SSE poller reads (via `m.ID()`,
`m.Online`, `m.ApprovedSubnets()`, `m.ExitNodeStatus()`, `m.Tags()`,
`m.User()`). -/
structure Machine where
  id : Nat
  online : Bool
  approvedSubnets : List String
  exitNodeStatus : String
  tags : List String
  user : String
deriving DecidableEq, Repr

/-- The fields of a headscale `User` the poller reads. -/
structure User where
  id : Nat
  name : String
deriving DecidableEq, Repr

/-- The `MachineState` literal built for one machine in `pollMachineChanges`:
`&MachineState{ID: m.ID(), Online: m.Online, ApprovedRoutes:
sets.FromSlice(m.ApprovedSubnets()), ExitNodeEnabled: m.ExitNodeStatus() ==
"Approved", Tags: sets.FromSlice(m.Tags())}`. -/
def machineStateOf (m : Machine) : MachineState :=
  { ID := m.id
    Online := m.online
    ApprovedRoutes := setFromSlice m.approvedSubnets
    ExitNodeEnabled := m.exitNodeStatus == "Approved"
    Tags := setFromSlice m.tags }

/-- The state-map construction loop of `pollMachineChanges`:
`currentStates[m.ID()] = &MachineState{...}` over all machines. -/
def buildMachineStates (machines : List Machine) : List (Nat × MachineState) :=
  machines.foldl (fun acc m => upsert acc m.id (machineStateOf m)) []

/-- `countMachinesPerUser`: `counts[m.User()]++` over all machines. -/
def countMachinesPerUser (machines : List Machine) : List (String × Nat) :=
  machines.foldl
    (fun acc m => upsert acc m.user ((findVal acc m.user).getD 0 + 1))
    []

/-- The state-map construction loop of `pollUserChanges`; a user absent
from the counts map gets the Go zero value 0. -/
def buildUserStates (users : List User) (machineCounts : List (String × Nat)) :
    List (Nat × UserState) :=
  users.foldl
    (fun acc u => upsert acc u.id
      { ID := u.id, Name := u.name,
        MachineCount := (findVal machineCounts u.name).getD 0 })
    []

/-- The environment one poll tick runs in: the broker's client count, the
two fetch results, and the render adapter (template execution), which
yields `none` on a template error. -/
structure TickEnv where
  clientCount : Nat
  machinesResult : Except String (List Machine)
  usersResult : Except String (List User)
  renderMachinesTable : List Machine → List User → Option String
  renderUsersTable : List User → Option String

/-- The poller's local state: the previous-tick projection maps. -/
structure PollerState where
  lastMachineStates : List (Nat × MachineState)
  lastUserStates : List (Nat × UserState)
deriving DecidableEq

/-- Which Snapshot-Fetcher calls a tick made. -/
inductive FetchCall
  | fetchMachines
  | listUsers
deriving DecidableEq, Repr

/-- Observable trace of one poll tick: fetcher calls made, change
detectors run, and events handed to `Broker.Broadcast`. -/
structure TickTrace where
  fetches : List FetchCall
  detectorsRun : List String
  events : List Event
deriving DecidableEq, Repr

/-- `broadcastMachinesTableUpdate`: renders the machines table; on a
template error it logs and returns without broadcasting, otherwise it
broadcasts one `machinesTable` event with the rendered HTML. -/
def broadcastMachinesTableUpdate (env : TickEnv) (machines : List Machine)
    (users : List User) : List Event :=
  match env.renderMachinesTable machines users with
  | none => []
  | some html => [⟨"machinesTable", html⟩]

/-- `broadcastUsersTableUpdate`: renders the users table; on a template
error it returns without broadcasting, otherwise it broadcasts one
`usersTable` event with the rendered HTML wrapped in an oob div. -/
def broadcastUsersTableUpdate (env : TickEnv) (users : List User) : List Event :=
  match env.renderUsersTable users with
  | none => []
  | some html =>
      [⟨"usersTable", "<div id=\"users-table\" hx-swap-oob=\"true\">" ++ html ++ "</div>"⟩]

/-- `pollMachineChanges`: builds the current map, broadcasts if the
detector fires, and returns the current map as the next previous map
unconditionally. -/
def pollMachineChanges (env : TickEnv) (machines : List Machine)
    (users : List User) (previousStates : List (Nat × MachineState)) :
    List (Nat × MachineState) × List Event :=
  let currentStates := buildMachineStates machines
  (currentStates,
   if detectMachineChanges currentStates previousStates
   then broadcastMachinesTableUpdate env machines users
   else [])

/-- `pollUserChanges`: same shape for users. -/
def pollUserChanges (env : TickEnv) (users : List User)
    (machineCounts : List (String × Nat))
    (previousStates : List (Nat × UserState)) :
    List (Nat × UserState) × List Event :=
  let currentStates := buildUserStates users machineCounts
  (currentStates,
   if detectUserChanges currentStates previousStates
   then broadcastUsersTableUpdate env users
   else [])

/-- One `ticker.C` iteration of `StartPolling`: skip everything when no
client is connected; on a machine-fetch error `continue`; on a user-fetch
error `continue` (the machine half runs only after both fetches succeed);
otherwise run both detectors and replace both state maps. -/
def pollTick (env : TickEnv) (st : PollerState) : PollerState × TickTrace :=
  if env.clientCount = 0 then (st, ⟨[], [], []⟩)
  else
    match env.machinesResult with
    | .error _ => (st, ⟨[.fetchMachines], [], []⟩)
    | .ok machines =>
      match env.usersResult with
      | .error _ => (st, ⟨[.fetchMachines, .listUsers], [], []⟩)
      | .ok users =>
        let machineCounts := countMachinesPerUser machines
        let rm := pollMachineChanges env machines users st.lastMachineStates
        let ru := pollUserChanges env users machineCounts st.lastUserStates
        ({ lastMachineStates := rm.1, lastUserStates := ru.1 },
         ⟨[.fetchMachines, .listUsers],
          ["detectMachineChanges", "detectUserChanges"],
          rm.2 ++ ru.2⟩)

/-! ### Association-list lemmas -/

theorem findVal_mem {κ α : Type} [DecidableEq κ] {l : List (κ × α)} {k : κ} {v : α}
    (h : findVal l k = some v) : (k, v) ∈ l := by
  induction l with
  | nil => simp [findVal] at h
  | cons hd tl ih =>
    obtain ⟨k', v'⟩ := hd
    simp only [findVal] at h
    by_cases hk : k' = k
    · subst hk
      have hv : v' = v := by simpa using h
      subst hv
      exact List.mem_cons_self _ _
    · rw [if_neg hk] at h
      exact List.mem_cons_of_mem _ (ih h)

theorem keyMem_of_mem {κ α : Type} {l : List (κ × α)} {k : κ} {v : α}
    (h : (k, v) ∈ l) : k ∈ keysOf l :=
  List.mem_map_of_mem Prod.fst h

theorem findVal_isSome_iff {κ α : Type} [DecidableEq κ] {l : List (κ × α)} {k : κ} :
    (findVal l k).isSome ↔ k ∈ keysOf l := by
  induction l with
  | nil => simp [findVal, keysOf]
  | cons hd tl ih =>
    obtain ⟨k', v'⟩ := hd
    by_cases hk : k' = k
    · subst hk
      simp [findVal, keysOf]
    · simp [findVal, keysOf, hk, ih, Ne.symm hk]

theorem findVal_eq_none_iff {κ α : Type} [DecidableEq κ] {l : List (κ × α)} {k : κ} :
    findVal l k = none ↔ k ∉ keysOf l := by
  rw [← findVal_isSome_iff, Option.isSome_iff_exists]
  cases findVal l k <;> simp

theorem mem_findVal {κ α : Type} [DecidableEq κ] {l : List (κ × α)} {k : κ} {v : α}
    (hnd : (keysOf l).Nodup) (h : (k, v) ∈ l) : findVal l k = some v := by
  induction l with
  | nil => simp at h
  | cons hd tl ih =>
    obtain ⟨k', v'⟩ := hd
    have hnd2 : (k' :: keysOf tl).Nodup := by simpa [keysOf] using hnd
    rcases List.mem_cons.mp h with heq | htl
    · have hk : k = k' := congrArg Prod.fst heq
      have hv : v = v' := congrArg Prod.snd heq
      subst hk; subst hv
      simp [findVal]
    · have hk : k' ≠ k := by
        intro he
        subst he
        exact (List.nodup_cons.mp hnd2).1 (keyMem_of_mem htl)
      simp only [findVal, if_neg hk]
      exact ih (List.nodup_cons.mp hnd2).2 htl

theorem findVal_mapAt {κ α : Type} [DecidableEq κ] (f : α → α) (l : List (κ × α)) (c k : κ) :
    findVal (l.map (fun p => if p.1 = c then (p.1, f p.2) else p)) k =
      (if k = c then (findVal l k).map f else findVal l k) := by
  induction l with
  | nil => by_cases hkc : k = c <;> simp [findVal, hkc]
  | cons hd tl ih =>
    obtain ⟨k', v'⟩ := hd
    have hhead : ((fun p => if p.1 = c then (p.1, f p.2) else p) ((k', v') : κ × α))
        = (k', if k' = c then f v' else v') := by
      by_cases h : k' = c <;> simp [h]
    simp only [List.map_cons, hhead]
    by_cases hk'k : k' = k
    · subst hk'k
      by_cases hkc : k' = c <;> simp [findVal, hkc]
    · simp [findVal, hk'k, ih]

theorem findVal_foldl_mapAt {α : Type} (f : α → α) (reg : List Nat) (hnd : reg.Nodup) :
    ∀ (qs : List (Nat × α)) (k : Nat),
      findVal (reg.foldl
          (fun acc c => acc.map (fun p => if p.1 = c then (p.1, f p.2) else p)) qs) k =
        (if k ∈ reg then (findVal qs k).map f else findVal qs k) := by
  induction reg with
  | nil => intro qs k; simp
  | cons c rest ih =>
    intro qs k
    have hc : c ∉ rest := (List.nodup_cons.mp hnd).1
    have hrest : rest.Nodup := (List.nodup_cons.mp hnd).2
    simp only [List.foldl_cons]
    rw [ih hrest]
    simp only [findVal_mapAt]
    by_cases hk : k ∈ rest
    · have hne : k ≠ c := fun he => hc (he ▸ hk)
      simp [hk, hne, List.mem_cons]
    · by_cases hkc : k = c
      · subst hkc
        simp [hk, List.mem_cons]
      · simp [hk, hkc, List.mem_cons]

theorem findVal_offerAll {reg : List Nat} (hnd : reg.Nodup) (e : Event)
    (qs : List (Nat × Queue)) (k : Nat) :
    findVal (reg.foldl (fun qs c => offerTo qs c e) qs) k =
      (if k ∈ reg then (findVal qs k).map (fun q => offer q e) else findVal qs k) := by
  have h := findVal_foldl_mapAt (fun q => offer q e) reg hnd qs k
  simpa [offerTo] using h

theorem findVal_closeAll {reg : List Nat} (hnd : reg.Nodup)
    (qs : List (Nat × Queue)) (k : Nat) :
    findVal (reg.foldl (fun qs c => closeQueueAt qs c) qs) k =
      (if k ∈ reg then (findVal qs k).map (fun q => { q with closed := true })
       else findVal qs k) := by
  have h := findVal_foldl_mapAt (fun q => { q with closed := true }) reg hnd qs k
  simpa [closeQueueAt] using h

theorem findVal_closeQueueAt (qs : List (Nat × Queue)) (c k : Nat) :
    findVal (closeQueueAt qs c) k =
      (if k = c then (findVal qs k).map (fun q => { q with closed := true })
       else findVal qs k) := by
  have h := findVal_mapAt (fun q => { q with closed := true }) qs c k
  simpa [closeQueueAt] using h

/-! ### Concrete broker fixtures -/

/-- A sample event. -/
def eventX : Event := ⟨"x", "p"⟩

/-- An open, empty client channel. -/
def queueA : Queue := ⟨[], false⟩

/-- A client channel filled to its capacity of 5. -/
def queueFull : Queue := ⟨[eventX, eventX, eventX, eventX, eventX], false⟩

/-- A broker with channels 1, 2, 3 allocated and 1, 2 registered;
channel 2's buffer is full. -/
def brokerTwoSubs : BrokerState :=
  { queues := [(1, queueA), (2, queueFull), (3, queueA)],
    registered := [1, 2], intake := [], doneClosed := false, runExited := false }

/-- The same broker with a full intake buffer. -/
def brokerFullIntake : BrokerState :=
  { brokerTwoSubs with intake := List.replicate 10 eventX }

/-- A closed, drained client channel. -/
def closedEmptyQueue : Queue := ⟨[], true⟩

/-! ### Broker claims -/

/-- C1: when the Broker's event loop processes one broadcast, the event is
offered exactly once to every subscriber queue registered at that moment
(the offer list counts each registered identity once, and each registered
queue undergoes exactly one non-blocking `offer`), and a channel not
registered at that moment is offered nothing (count zero, queue unchanged). -/
theorem broadcast_fanout_exactly_once (st : BrokerState) (e : Event)
    (hreg : st.registered.Nodup) :
    (∀ c, c ∈ st.registered → ((processBroadcastEvent st e).2.count c = 1)) ∧
    (∀ c, c ∉ st.registered → ((processBroadcastEvent st e).2.count c = 0)) ∧
    (∀ c q, findVal st.queues c = some q →
      findVal (processBroadcastEvent st e).1.queues c =
        some (if c ∈ st.registered then offer q e else q)) := by
  refine ⟨?_, ?_, ?_⟩
  · intro c hc
    exact List.count_eq_one_of_mem hreg hc
  · intro c hc
    exact List.count_eq_zero_of_not_mem hc
  · intro c q hq
    show findVal (st.registered.foldl (fun qs c => offerTo qs c e) st.queues) c = _
    rw [findVal_offerAll hreg e st.queues c, hq]
    by_cases hc : c ∈ st.registered <;> simp [hc]

/-- C1 witness: in `brokerTwoSubs`, a broadcast of `eventX` is offered once
each to registered channels 1 and 2, not at all to unregistered channel 3,
and channel 1's queue receives the event. -/
theorem broadcast_fanout_exactly_once_witness :
    ((processBroadcastEvent brokerTwoSubs eventX).2.count 1 = 1) ∧
    ((processBroadcastEvent brokerTwoSubs eventX).2.count 3 = 0) ∧
    findVal (processBroadcastEvent brokerTwoSubs eventX).1.queues 1 =
      some (offer queueA eventX) := by
  obtain ⟨h1, h2, h3⟩ :=
    broadcast_fanout_exactly_once brokerTwoSubs eventX (by decide)
  refine ⟨h1 1 (by decide), h2 3 (by decide), ?_⟩
  have h := h3 1 queueA (by decide)
  rw [if_pos (by decide)] at h
  exact h

/-- C2: `Broadcast` never blocks or errors (outcome `ok` in all cases); with
the intake full the event is dropped entirely and the state is untouched;
during fan-out a full subscriber queue drops the event for that subscriber
only, while every registered subscriber with room still receives it. -/
theorem broadcast_nonblocking_isolated (st : BrokerState) (e : Event)
    (hreg : st.registered.Nodup) :
    ((Broadcast st e).1 = GoOutcome.ok) ∧
    (intakeCap ≤ st.intake.length → (Broadcast st e).2 = st) ∧
    (st.intake.length < intakeCap →
      (Broadcast st e).2 = { st with intake := st.intake ++ [e] }) ∧
    (∀ c q, findVal st.queues c = some q → c ∈ st.registered →
      clientQueueCap ≤ q.buf.length →
      findVal (processBroadcastEvent st e).1.queues c = some q) ∧
    (∀ c q, findVal st.queues c = some q → c ∈ st.registered →
      q.buf.length < clientQueueCap →
      findVal (processBroadcastEvent st e).1.queues c =
        some { q with buf := q.buf ++ [e] }) := by
  refine ⟨?_, ?_, ?_, ?_, ?_⟩
  · unfold Broadcast; split <;> rfl
  · intro h
    simp [Broadcast, Nat.not_lt.mpr h]
  · intro h
    simp [Broadcast, h]
  · intro c q hq hc hfull
    show findVal (st.registered.foldl (fun qs c => offerTo qs c e) st.queues) c = _
    rw [findVal_offerAll hreg e st.queues c, hq, if_pos hc]
    simp [offer, Nat.not_lt.mpr hfull]
  · intro c q hq hc hroom
    show findVal (st.registered.foldl (fun qs c => offerTo qs c e) st.queues) c = _
    rw [findVal_offerAll hreg e st.queues c, hq, if_pos hc]
    simp [offer, hroom]

/-- C2 witness: with a full intake the broadcast returns ok and drops the
event; in `brokerTwoSubs` the full channel 2 keeps its old buffer while
channel 1 still receives the event. -/
theorem broadcast_nonblocking_isolated_witness :
    ((Broadcast brokerFullIntake eventX).1 = GoOutcome.ok ∧
     (Broadcast brokerFullIntake eventX).2 = brokerFullIntake) ∧
    (findVal (processBroadcastEvent brokerTwoSubs eventX).1.queues 2 =
      some queueFull) ∧
    (findVal (processBroadcastEvent brokerTwoSubs eventX).1.queues 1 =
      some { queueA with buf := queueA.buf ++ [eventX] }) := by
  obtain ⟨hok, hdrop, _, hfull, hroom⟩ :=
    broadcast_nonblocking_isolated brokerFullIntake eventX (by decide)
  obtain ⟨_, _, _, hfull2, hroom2⟩ :=
    broadcast_nonblocking_isolated brokerTwoSubs eventX (by decide)
  exact ⟨⟨hok, hdrop (by decide)⟩,
         hfull2 2 queueFull (by decide) (by decide) (by decide),
         hroom2 1 queueA (by decide) (by decide) (by decide)⟩

/-- C3 counterexample: the claim says a second `Close` completes as a safe
no-op without panicking; but `Broker.Close` is `close(b.done)`, and in Go
closing an already-closed channel panics, so calling `Close` twice on a
fresh broker panics. -/
theorem close_after_close_panics :
    (closeBroker (closeBroker initialBroker).2).1 = GoOutcome.panics := rfl

/-- C3 amended: after `Close` (the run loop has exited), `Broadcast` returns
without blocking, panicking, or error and the event is never fanned out
(registry and queues untouched); but `Subscribe` and `Unsubscribe` block
forever on their unbuffered channels, and a second `Close` panics. -/
theorem post_close_use (st : BrokerState) (e : Event) (c : Nat)
    (hexit : st.runExited = true) :
    ((Broadcast st e).1 = GoOutcome.ok ∧
     (Broadcast st e).2.registered = st.registered ∧
     (Broadcast st e).2.queues = st.queues) ∧
    ((Subscribe st c).1 = GoOutcome.blocks ∧ (Subscribe st c).2 = st) ∧
    ((Unsubscribe st c).1 = GoOutcome.blocks ∧ (Unsubscribe st c).2 = st) ∧
    (st.doneClosed = true → (closeBroker st).1 = GoOutcome.panics) := by
  refine ⟨⟨?_, ?_, ?_⟩, ⟨?_, ?_⟩, ⟨?_, ?_⟩, ?_⟩
  · unfold Broadcast; split <;> rfl
  · unfold Broadcast; split <;> rfl
  · unfold Broadcast; split <;> rfl
  · simp [Subscribe, hexit]
  · simp [Subscribe, hexit]
  · simp [Unsubscribe, hexit]
  · simp [Unsubscribe, hexit]
  · intro hd; simp [closeBroker, hd]

/-- C3 amended witness: on the broker obtained by closing a fresh broker,
`Subscribe` blocks. -/
theorem post_close_use_witness :
    (Subscribe (closeBroker initialBroker).2 3).1 = GoOutcome.blocks :=
  ((post_close_use (closeBroker initialBroker).2 eventX 3 rfl).2.1).1

/-- C4 counterexample: the claim says every live `HandleSSE` loop terminates
once its queue observes closure; but the loop receives with
`event := <-clientChan`, ignoring the closed flag, so on a closed drained
channel (context not cancelled) one loop iteration frames the zero-value
event and continues instead of exiting. -/
theorem sse_not_terminated_by_close :
    handleSSEStep closedEmptyQueue false =
      TransportStep.framed ⟨"", ""⟩ closedEmptyQueue ∧
    handleSSEStep closedEmptyQueue false ≠ TransportStep.exited :=
  ⟨rfl, by decide⟩

/-- C4 amended: `Close` is terminal for the broker itself — every subscriber
queue registered at that time is closed — but a live `HandleSSE` loop does
not terminate on queue closure: while its request context is live it keeps
framing zero-value events received from the closed queue, and it exits only
when its own context is cancelled. -/
theorem close_closes_queues_transport_spins (st : BrokerState)
    (hreg : st.registered.Nodup) (hdone : st.doneClosed = false) :
    (∀ c, c ∈ st.registered → ∀ q, findVal st.queues c = some q →
      findVal (closeBroker st).2.queues c = some { q with closed := true }) ∧
    (∀ q : Queue, q.closed = true → q.buf = [] →
      handleSSEStep q false = TransportStep.framed ⟨"", ""⟩ q) ∧
    (∀ q : Queue, handleSSEStep q true = TransportStep.exited) := by
  refine ⟨?_, ?_, ?_⟩
  · intro c hc q hq
    have hcb : (closeBroker st).2 = processDone { st with doneClosed := true } := by
      simp [closeBroker, hdone]
    rw [hcb]
    show findVal (st.registered.foldl (fun qs c => closeQueueAt qs c) st.queues) c = _
    rw [findVal_closeAll hreg st.queues c, if_pos hc, hq]
    rfl
  · intro q hcl hbuf
    simp [handleSSEStep, recvChan, hbuf, hcl]
  · intro q
    simp [handleSSEStep]

/-- C4 amended witness: closing `brokerTwoSubs` closes registered channel
1's queue. -/
theorem close_closes_queues_transport_spins_witness :
    findVal (closeBroker brokerTwoSubs).2.queues 1 = some ⟨[], true⟩ :=
  (close_closes_queues_transport_spins brokerTwoSubs (by decide) rfl).1
    1 (by decide) queueA (by decide)

/-- Unregistering an absent handle leaves the broker state unchanged. -/
theorem processUnregister_not_mem {st : BrokerState} {c : Nat}
    (h : c ∉ st.registered) : processUnregister st c = st := by
  simp [processUnregister, h]

/-- C9: the unregister branch removes a present handle from the registry and
closes its queue; unsubscribing an absent handle is a no-op (state equal, no
second close of the queue); a second unsubscribe of the same handle changes
nothing; other channels' queues and registration are unaffected; and while
the loop runs, `Unsubscribe` returns without error. -/
theorem unsubscribe_removes_closes_idempotent (st : BrokerState) (c : Nat)
    (hreg : st.registered.Nodup) :
    (st.runExited = false → (Unsubscribe st c).1 = GoOutcome.ok) ∧
    (c ∉ (processUnregister st c).registered) ∧
    (c ∈ st.registered → ∀ q, findVal st.queues c = some q →
      findVal (processUnregister st c).queues c = some { q with closed := true }) ∧
    (c ∉ st.registered → processUnregister st c = st) ∧
    (processUnregister (processUnregister st c) c = processUnregister st c) ∧
    (∀ c' q, c' ≠ c → findVal st.queues c' = some q →
      findVal (processUnregister st c).queues c' = some q) ∧
    (∀ c', c' ≠ c → (c' ∈ (processUnregister st c).registered ↔ c' ∈ st.registered)) := by
  have habsent : c ∉ (processUnregister st c).registered := by
    by_cases hc : c ∈ st.registered
    · simp only [processUnregister, if_pos hc]
      intro hmem
      exact ((List.Nodup.mem_erase_iff hreg).mp hmem).1 rfl
    · simp only [processUnregister, if_neg hc]
      exact hc
  refine ⟨?_, habsent, ?_, ?_, ?_, ?_, ?_⟩
  · intro hrun
    simp [Unsubscribe, hrun]
  · intro hc q hq
    simp only [processUnregister, if_pos hc]
    rw [findVal_closeQueueAt, if_pos rfl, hq]
    rfl
  · intro hc
    exact processUnregister_not_mem hc
  · exact processUnregister_not_mem habsent
  · intro c' q hne hq
    by_cases hc : c ∈ st.registered
    · simp only [processUnregister, if_pos hc]
      rw [findVal_closeQueueAt, if_neg hne, hq]
    · simp [processUnregister, hc, hq]
  · intro c' hne
    by_cases hc : c ∈ st.registered
    · simp only [processUnregister, if_pos hc]
      exact List.mem_erase_of_ne hne
    · simp [processUnregister, hc]

/-- C9 witness: in `brokerTwoSubs`, unsubscribing handle 2 deregisters it
and closes its queue, and a second unsubscribe of 2 changes nothing. -/
theorem unsubscribe_removes_closes_idempotent_witness :
    (2 ∉ (processUnregister brokerTwoSubs 2).registered) ∧
    (findVal (processUnregister brokerTwoSubs 2).queues 2 =
      some { queueFull with closed := true }) ∧
    (processUnregister (processUnregister brokerTwoSubs 2) 2 =
      processUnregister brokerTwoSubs 2) := by
  obtain ⟨_, h2, h3, _, h5, _, _⟩ :=
    unsubscribe_removes_closes_idempotent brokerTwoSubs 2 (by decide)
  exact ⟨h2, h3 (by decide) queueFull (by decide), h5⟩

/-! ### Change-detector lemmas -/

theorem setEquals_iff {s s2 : Finset String} : setEquals s s2 = true ↔ s2 = s := by
  simp only [setEquals, Bool.and_eq_true, beq_iff_eq, decide_eq_true_eq]
  constructor
  · rintro ⟨hcard, hsub⟩
    exact Finset.eq_of_subset_of_card_le hsub (le_of_eq hcard.symm)
  · rintro rfl
    exact ⟨rfl, Finset.Subset.refl _⟩

theorem machineFieldsChanged_eq_false_iff {c p : MachineState} :
    machineFieldsChanged c p = false ↔
      (c.Online = p.Online ∧ c.ApprovedRoutes = p.ApprovedRoutes ∧
       c.ExitNodeEnabled = p.ExitNodeEnabled ∧ c.Tags = p.Tags) := by
  simp only [machineFieldsChanged, Bool.or_eq_false_iff, bne_eq_false_iff_eq,
    Bool.not_eq_false', setEquals_iff]
  constructor
  · rintro ⟨⟨h1, h2, h3⟩, h4⟩
    exact ⟨h1, h2.symm, h3, h4.symm⟩
  · rintro ⟨h1, h2, h3, h4⟩
    exact ⟨⟨h1, h2.symm, h3⟩, h4.symm⟩

theorem userFieldsChanged_eq_false_iff {c p : UserState} :
    userFieldsChanged c p = false ↔
      (c.Name = p.Name ∧ c.MachineCount = p.MachineCount) := by
  simp [userFieldsChanged]

theorem keysOf_length {κ α : Type} (l : List (κ × α)) :
    (keysOf l).length = l.length := List.length_map _ _

theorem length_eq_of_pointwise {κ α : Type} [DecidableEq κ]
    {c p : List (κ × α)}
    (hc : (keysOf c).Nodup) (hp : (keysOf p).Nodup)
    (hsame : ∀ k, findVal c k = findVal p k) : c.length = p.length := by
  have hmem : ∀ k, k ∈ keysOf c ↔ k ∈ keysOf p := by
    intro k
    rw [← findVal_isSome_iff, ← findVal_isSome_iff, hsame k]
  have hperm : List.Perm (keysOf c) (keysOf p) :=
    (List.perm_ext_iff_of_nodup hc hp).mpr hmem
  have hlen := hperm.length_eq
  rwa [keysOf_length, keysOf_length] at hlen

theorem detectMachineChanges_eq_false_of_pointwise
    {cur prev : List (Nat × MachineState)}
    (hc : (keysOf cur).Nodup) (hsame : ∀ k, findVal cur k = findVal prev k) :
    detectMachineChanges cur prev = false := by
  unfold detectMachineChanges
  simp only [Bool.or_eq_false_iff]
  refine ⟨⟨?_, ?_⟩, ?_⟩
  · rw [List.any_eq_false]
    intro p hp
    have hk : p.1 ∈ keysOf cur := List.mem_map_of_mem Prod.fst hp
    obtain ⟨v, hv⟩ := Option.isSome_iff_exists.mp (findVal_isSome_iff.mpr hk)
    rw [← hsame p.1, hv]
    simp
  · rw [List.any_eq_false]
    intro p hp
    have hk : p.1 ∈ keysOf prev := List.mem_map_of_mem Prod.fst hp
    obtain ⟨v, hv⟩ := Option.isSome_iff_exists.mp (findVal_isSome_iff.mpr hk)
    rw [hsame p.1, hv]
    simp
  · rw [List.any_eq_false]
    intro p hp
    have hv : findVal cur p.1 = some p.2 := mem_findVal hc hp
    rw [← hsame p.1, hv]
    simp [machineFieldsChanged_eq_false_iff]

theorem detectUserChanges_eq_false_of_pointwise
    {cur prev : List (Nat × UserState)}
    (hc : (keysOf cur).Nodup) (hp : (keysOf prev).Nodup)
    (hsame : ∀ k, findVal cur k = findVal prev k) :
    detectUserChanges cur prev = false := by
  unfold detectUserChanges
  simp only [Bool.or_eq_false_iff]
  refine ⟨?_, ?_⟩
  · have := length_eq_of_pointwise hc hp hsame
    simp [this]
  · rw [List.any_eq_false]
    intro q hq
    have hv : findVal cur q.1 = some q.2 := mem_findVal hc hq
    rw [← hsame q.1, hv]
    simp [userFieldsChanged_eq_false_iff]

/-! ### Concrete detector fixtures -/

/-- A sample machine projection with non-empty route and tag sets. -/
def msA : MachineState :=
  ⟨1, true, setFromSlice ["10.0.0.0/24"], false, setFromSlice ["tag"]⟩

/-- `msA` with the online flag flipped. -/
def msAOffline : MachineState :=
  ⟨1, false, setFromSlice ["10.0.0.0/24"], false, setFromSlice ["tag"]⟩

/-- A one-machine snapshot map. -/
def mmapA : List (Nat × MachineState) := [(1, msA)]

/-- A sample user projection. -/
def usA : UserState := ⟨1, "alice", 2⟩

/-- A two-user snapshot map. -/
def umapA : List (Nat × UserState) := [(1, usA), (2, ⟨2, "bob", 0⟩)]

/-! ### Detector claims -/

/-- C5: both change detectors are reflexive (comparing any snapshot map with
itself yields false) and, more generally, return false on any two
independently built maps that agree pointwise — and `setFromSlice` erases
slice order and duplicates, so set-valued fields rebuilt from reordered or
duplicated slices compare equal. -/
theorem detectors_reflexive :
    (∀ s : List (Nat × MachineState), (keysOf s).Nodup →
      detectMachineChanges s s = false) ∧
    (∀ s : List (Nat × UserState), (keysOf s).Nodup →
      detectUserChanges s s = false) ∧
    (∀ current previous : List (Nat × MachineState),
      (keysOf current).Nodup → (keysOf previous).Nodup →
      (∀ k, findVal current k = findVal previous k) →
      detectMachineChanges current previous = false) ∧
    (∀ current previous : List (Nat × UserState),
      (keysOf current).Nodup → (keysOf previous).Nodup →
      (∀ k, findVal current k = findVal previous k) →
      detectUserChanges current previous = false) ∧
    (∀ l1 l2 : List String, (∀ x, x ∈ l1 ↔ x ∈ l2) →
      setFromSlice l1 = setFromSlice l2) := by
  refine ⟨?_, ?_, ?_, ?_, ?_⟩
  · intro s h
    exact detectMachineChanges_eq_false_of_pointwise h (fun _ => rfl)
  · intro s h
    exact detectUserChanges_eq_false_of_pointwise h h (fun _ => rfl)
  · intro cur prev hc _ hsame
    exact detectMachineChanges_eq_false_of_pointwise hc hsame
  · intro cur prev hc hp hsame
    exact detectUserChanges_eq_false_of_pointwise hc hp hsame
  · intro l1 l2 h
    ext x
    simp [setFromSlice, List.mem_toFinset, h x]

/-- C5 witness: both detectors return false on concrete maps compared with
themselves, and a set built from a duplicated, reordered slice equals the
set built from the clean slice. -/
theorem detectors_reflexive_witness :
    detectMachineChanges mmapA mmapA = false ∧
    detectUserChanges umapA umapA = false ∧
    setFromSlice ["a", "b", "b"] = setFromSlice ["b", "a"] := by
  obtain ⟨h1, h2, _, _, h5⟩ := detectors_reflexive
  refine ⟨h1 mmapA (by decide), h2 umapA (by decide), h5 _ _ ?_⟩
  intro x
  constructor <;> intro h <;> simp only [List.mem_cons, List.not_mem_nil] at h ⊢ <;>
    tauto

/-- C6: each detector fires on every tracked difference: an entity present
in one map and absent from the other (in either direction, including an add
and a remove that keep the sizes equal), or any single tracked field differing
for an entity present in both — online flag, route set, exit-node flag, or
tag set for machines; name or machine count for users. -/
theorem detectors_sensitive :
    (∀ cur prev : List (Nat × MachineState),
      ((∃ k v, findVal cur k = some v ∧ findVal prev k = none) ∨
       (∃ k v, findVal prev k = some v ∧ findVal cur k = none) ∨
       (∃ k cv pv, findVal cur k = some cv ∧ findVal prev k = some pv ∧
         (cv.Online ≠ pv.Online ∨ cv.ApprovedRoutes ≠ pv.ApprovedRoutes ∨
          cv.ExitNodeEnabled ≠ pv.ExitNodeEnabled ∨ cv.Tags ≠ pv.Tags))) →
      detectMachineChanges cur prev = true) ∧
    (∀ cur prev : List (Nat × UserState),
      (keysOf cur).Nodup → (keysOf prev).Nodup →
      ((∃ k v, findVal cur k = some v ∧ findVal prev k = none) ∨
       (∃ k v, findVal prev k = some v ∧ findVal cur k = none) ∨
       (∃ k cv pv, findVal cur k = some cv ∧ findVal prev k = some pv ∧
         (cv.Name ≠ pv.Name ∨ cv.MachineCount ≠ pv.MachineCount))) →
      detectUserChanges cur prev = true) := by
  constructor
  · intro cur prev h
    unfold detectMachineChanges
    rcases h with ⟨k, v, hc, hp⟩ | ⟨k, v, hp, hc⟩ | ⟨k, cv, pv, hc, hp, hdiff⟩
    · have hany : cur.any (fun p => (findVal prev p.1).isNone) = true := by
        rw [List.any_eq_true]
        exact ⟨(k, v), findVal_mem hc, by simp [hp]⟩
      simp [hany]
    · have hany : prev.any (fun p => (findVal cur p.1).isNone) = true := by
        rw [List.any_eq_true]
        exact ⟨(k, v), findVal_mem hp, by simp [hc]⟩
      simp [hany]
    · have hchanged : machineFieldsChanged cv pv = true := by
        cases hx : machineFieldsChanged cv pv
        · obtain ⟨h1, h2, h3, h4⟩ := machineFieldsChanged_eq_false_iff.mp hx
          rcases hdiff with hd | hd | hd | hd <;> exact absurd (by assumption) hd
        · rfl
      have hany : cur.any (fun p =>
          match findVal prev p.1 with
          | some pv' => machineFieldsChanged p.2 pv'
          | none => false) = true := by
        rw [List.any_eq_true]
        refine ⟨(k, cv), findVal_mem hc, ?_⟩
        simp only
        rw [hp]
        exact hchanged
      simp [hany]
  · intro cur prev hcnd hpnd h
    unfold detectUserChanges
    rcases h with ⟨k, v, hc, hp⟩ | ⟨k, v, hp, hc⟩ | ⟨k, cv, pv, hc, hp, hdiff⟩
    · have hany : cur.any (fun p =>
          match findVal prev p.1 with
          | none => true
          | some pv' => userFieldsChanged p.2 pv') = true := by
        rw [List.any_eq_true]
        refine ⟨(k, v), findVal_mem hc, ?_⟩
        simp only
        rw [hp]
      simp [hany]
    · by_cases hlen : cur.length = prev.length
      · have hkp : k ∈ keysOf prev := findVal_isSome_iff.mp (by simp [hp])
        have hkc : k ∉ keysOf cur := findVal_eq_none_iff.mp hc
        have hccard : (keysOf cur).toFinset.card = cur.length := by
          rw [List.toFinset_card_of_nodup hcnd, keysOf_length]
        have hpcard : (keysOf prev).toFinset.card = prev.length := by
          rw [List.toFinset_card_of_nodup hpnd, keysOf_length]
        have hnsub : ¬ (keysOf cur).toFinset ⊆ (keysOf prev).toFinset := by
          intro hsub
          have heq : (keysOf cur).toFinset = (keysOf prev).toFinset :=
            Finset.eq_of_subset_of_card_le hsub
              (by rw [hccard, hpcard, hlen])
          have hmem : k ∈ (keysOf cur).toFinset :=
            heq ▸ List.mem_toFinset.mpr hkp
          exact hkc (List.mem_toFinset.mp hmem)
        obtain ⟨k', hk'c, hk'p⟩ : ∃ k', k' ∈ keysOf cur ∧ k' ∉ keysOf prev := by
          by_contra hno
          push_neg at hno
          exact hnsub (fun x hx =>
            List.mem_toFinset.mpr (hno x (List.mem_toFinset.mp hx)))
        obtain ⟨p0, hp0, hp0k⟩ := List.mem_map.mp hk'c
        have hany : cur.any (fun p =>
            match findVal prev p.1 with
            | none => true
            | some pv' => userFieldsChanged p.2 pv') = true := by
          rw [List.any_eq_true]
          refine ⟨p0, hp0, ?_⟩
          have hnone : findVal prev p0.1 = none :=
            findVal_eq_none_iff.mpr (hp0k ▸ hk'p)
          simp [hnone]
        simp [hany]
      · have hbne : (cur.length != prev.length) = true := by
          simp [bne_iff_ne]
          exact hlen
        simp [hbne]
    · have hchanged : userFieldsChanged cv pv = true := by
        cases hx : userFieldsChanged cv pv
        · obtain ⟨h1, h2⟩ := userFieldsChanged_eq_false_iff.mp hx
          rcases hdiff with hd | hd <;> exact absurd (by assumption) hd
        · rfl
      have hany : cur.any (fun p =>
          match findVal prev p.1 with
          | none => true
          | some pv' => userFieldsChanged p.2 pv') = true := by
        rw [List.any_eq_true]
        refine ⟨(k, cv), findVal_mem hc, ?_⟩
        simp only
        rw [hp]
        exact hchanged
      simp [hany]

/-- C6 witness: flipping one machine's online flag fires the machine
detector; a user present only in the current map fires the user detector. -/
theorem detectors_sensitive_witness :
    detectMachineChanges [(1, msA)] [(1, msAOffline)] = true ∧
    detectUserChanges [(1, usA)] [] = true := by
  obtain ⟨hm, hu⟩ := detectors_sensitive
  constructor
  · exact hm _ _ (Or.inr (Or.inr
      ⟨1, msA, msAOffline, rfl, rfl, Or.inl (by decide)⟩))
  · exact hu _ _ (by decide) (by decide) (Or.inl ⟨1, usA, rfl, rfl⟩)

/-! ### Poller lemmas -/

theorem keysOf_upsert {κ α : Type} [DecidableEq κ] (l : List (κ × α)) (k : κ) (v : α) :
    keysOf (upsert l k v) =
      (if k ∈ keysOf l then keysOf l else keysOf l ++ [k]) := by
  induction l with
  | nil => simp [upsert, keysOf]
  | cons hd tl ih =>
    obtain ⟨k', v'⟩ := hd
    by_cases hk : k' = k
    · subst hk
      simp [upsert, keysOf]
    · simp only [upsert, if_neg hk, keysOf, List.map_cons] at ih ⊢
      rw [ih]
      have hne : ¬ k = k' := fun he => hk he.symm
      by_cases hmem : k ∈ List.map Prod.fst tl <;>
        simp [hmem, hne, List.mem_cons]

theorem keysOf_upsert_nodup {κ α : Type} [DecidableEq κ] {l : List (κ × α)}
    (h : (keysOf l).Nodup) (k : κ) (v : α) :
    (keysOf (upsert l k v)).Nodup := by
  rw [keysOf_upsert]
  split
  · exact h
  · next hk =>
    rw [List.nodup_append]
    refine ⟨h, List.nodup_singleton k, ?_⟩
    intro a ha hak
    rw [List.mem_singleton] at hak
    subst hak
    exact hk ha

theorem foldl_upsert_keys_nodup {κ α β : Type} [DecidableEq κ]
    (key : β → κ) (val : List (κ × α) → β → α) :
    ∀ (l : List β) (acc : List (κ × α)), (keysOf acc).Nodup →
      (keysOf (l.foldl (fun acc b => upsert acc (key b) (val acc b)) acc)).Nodup := by
  intro l
  induction l with
  | nil => intro acc h; simpa using h
  | cons b rest ih =>
    intro acc h
    simp only [List.foldl_cons]
    exact ih _ (keysOf_upsert_nodup h _ _)

theorem buildMachineStates_keys_nodup (machines : List Machine) :
    (keysOf (buildMachineStates machines)).Nodup := by
  have h := foldl_upsert_keys_nodup (fun m : Machine => m.id)
      (fun _ m => machineStateOf m) machines [] (by simp [keysOf])
  simpa [buildMachineStates] using h

theorem broadcastUsersTableUpdate_types (env : TickEnv) (users : List User) :
    ∀ ev ∈ broadcastUsersTableUpdate env users, ev.typ = "usersTable" := by
  unfold broadcastUsersTableUpdate
  split
  · intro ev hev
    simp at hev
  · intro ev hev
    rw [List.mem_singleton] at hev
    subst hev
    rfl

theorem pollUserChanges_event_types (env : TickEnv) (users : List User)
    (mc : List (String × Nat)) (prev : List (Nat × UserState)) :
    ∀ ev ∈ (pollUserChanges env users mc prev).2, ev.typ = "usersTable" := by
  unfold pollUserChanges
  intro ev hev
  simp only at hev
  split at hev
  · exact broadcastUsersTableUpdate_types env users ev hev
  · simp at hev

/-! ### Concrete poller fixtures -/

/-- A sample fetched machine. -/
def machA : Machine := ⟨1, true, [], "", [], "alice"⟩

/-- A tick environment with no connected clients. -/
def pollEnvIdle : TickEnv := ⟨0, .ok [], .ok [], fun _ _ => none, fun _ => none⟩

/-- A tick environment where the user fetch fails. -/
def pollEnvUserErr : TickEnv :=
  ⟨1, .ok [machA], .error "boom", fun _ _ => none, fun _ => none⟩

/-- A tick environment where both fetches succeed but rendering fails. -/
def pollEnvRenderFail : TickEnv :=
  ⟨1, .ok [machA], .ok [], fun _ _ => none, fun _ => none⟩

/-- The poller's initial state: empty previous maps. -/
def pollSt0 : PollerState := ⟨[], []⟩

/-! ### Poller claims -/

/-- C7: on a tick where the broker reports zero clients, the poller does
nothing: no fetch is made, no detector runs, nothing is broadcast, and both
previous-state maps are unchanged. -/
theorem poller_quiescent_when_no_clients (env : TickEnv) (st : PollerState)
    (h : env.clientCount = 0) :
    pollTick env st = (st, ⟨[], [], []⟩) := by
  simp [pollTick, h]

/-- C7 witness: a concrete idle tick is a no-op. -/
theorem poller_quiescent_when_no_clients_witness :
    pollTick pollEnvIdle pollSt0 = (pollSt0, ⟨[], [], []⟩) :=
  poller_quiescent_when_no_clients pollEnvIdle pollSt0 rfl

/-- C10 (implicit frame effect): on a tick where the machine fetch succeeds
but the user fetch fails, the tick is abandoned for both entity classes:
both fetch calls happen, but no detector runs, nothing is broadcast, and
both previous-state maps are left unchanged. -/
theorem user_fetch_error_skips_both (env : TickEnv) (st : PollerState)
    (machines : List Machine) (msg : String)
    (hc : env.clientCount ≠ 0)
    (hm : env.machinesResult = .ok machines)
    (hu : env.usersResult = .error msg) :
    pollTick env st = (st, ⟨[.fetchMachines, .listUsers], [], []⟩) := by
  simp [pollTick, hc, hm, hu]

/-- C10 witness: a concrete tick with a failing user fetch changes no
state and broadcasts nothing. -/
theorem user_fetch_error_skips_both_witness :
    pollTick pollEnvUserErr pollSt0 =
      (pollSt0, ⟨[FetchCall.fetchMachines, FetchCall.listUsers], [], []⟩) :=
  user_fetch_error_skips_both pollEnvUserErr pollSt0 [machA] "boom"
    (by decide) rfl rfl

/-- C8: when a machine change is detected but the machines-table template
fails to render, no machines-table event is broadcast for that tick, yet the
stored previous map is still replaced by the freshly built one — so the same
snapshot on the next tick is no longer detected as a change. -/
theorem render_failure_advances_state (env : TickEnv) (st : PollerState)
    (machines : List Machine) (users : List User)
    (hc : env.clientCount ≠ 0)
    (hm : env.machinesResult = .ok machines)
    (hu : env.usersResult = .ok users)
    (hrender : env.renderMachinesTable machines users = none)
    (hchange : detectMachineChanges (buildMachineStates machines)
        st.lastMachineStates = true) :
    ((pollTick env st).1.lastMachineStates = buildMachineStates machines) ∧
    (∀ ev ∈ (pollTick env st).2.events, ev.typ ≠ "machinesTable") ∧
    detectMachineChanges (buildMachineStates machines)
      (pollTick env st).1.lastMachineStates = false := by
  have hmev : (pollMachineChanges env machines users st.lastMachineStates).2 = [] := by
    simp [pollMachineChanges, hchange, broadcastMachinesTableUpdate, hrender]
  have htick : pollTick env st =
      ({ lastMachineStates := buildMachineStates machines,
         lastUserStates :=
           (pollUserChanges env users (countMachinesPerUser machines)
             st.lastUserStates).1 },
       ⟨[.fetchMachines, .listUsers],
        ["detectMachineChanges", "detectUserChanges"],
        (pollMachineChanges env machines users st.lastMachineStates).2 ++
          (pollUserChanges env users (countMachinesPerUser machines)
            st.lastUserStates).2⟩) := by
    simp [pollTick, hc, hm, hu]
    rfl
  refine ⟨by rw [htick], ?_, ?_⟩
  · intro ev hev
    rw [htick] at hev
    simp only [hmev, List.nil_append] at hev
    have htyp := pollUserChanges_event_types env users
      (countMachinesPerUser machines) st.lastUserStates ev hev
    rw [htyp]
    decide
  · rw [htick]
    exact detectMachineChanges_eq_false_of_pointwise
      (buildMachineStates_keys_nodup machines) (fun _ => rfl)

/-- C8 witness: a concrete first tick (new machine detected) with a failing
renderer still advances the machine state map, and the same snapshot would
not be re-detected. -/
theorem render_failure_advances_state_witness :
    ((pollTick pollEnvRenderFail pollSt0).1.lastMachineStates =
      buildMachineStates [machA]) ∧
    detectMachineChanges (buildMachineStates [machA])
      (pollTick pollEnvRenderFail pollSt0).1.lastMachineStates = false := by
  obtain ⟨h1, _, h3⟩ := render_failure_advances_state pollEnvRenderFail pollSt0
    [machA] [] (by decide) rfl rfl rfl (by decide)
  exact ⟨h1, h3⟩

end HSAdmin
